import Mathlib

/-!
Verification development for the TLDR thread-reader.

The embedding below follows the two core modules of the repository:
  * the thread-assembly logic (URL id extraction, text cleaning, the
    demo-text normalizer, and the POST handler of the thread endpoint), and
  * the sequential playback engine of useSpeech.ts, modelled as an explicit
    state machine driven by backend events.

Strings are modelled through their character lists.  The JavaScript
whitespace class is modelled by its ASCII part (space, tab, newline,
carriage return, vertical tab, form feed); the inputs appearing in the
claims only use these characters.
-/

namespace TLDR

/-- Segment of a thread payload, mirroring ThreadSegment of types.ts. -/
structure ThreadSegment where
  id : String
  text : String
deriving DecidableEq

/-- Thread payload, mirroring ThreadPayload of types.ts.  The route handler
attaches an optional warning field on the degrade path, modelled here as an
optional field defaulting to none. -/
structure ThreadPayload where
  title : String
  authorHandle : Option String := none
  sourceUrl : Option String := none
  segments : List ThreadSegment
  warning : Option String := none
deriving DecidableEq

/-- The ASCII part of the JavaScript regex whitespace class. -/
def isWs (c : Char) : Bool :=
  c = ' ' || c = '\t' || c = '\n' || c = '\r' || c = '\x0b' || c = '\x0c'

/-- Model of String.prototype.replace with pattern \s+ (global) and
replacement a single space: every maximal run of whitespace characters
becomes one space.  A whitespace character followed by more whitespace is
dropped (the run continues); the last character of a run becomes the
single space. -/
def collapseWs : List Char → List Char
  | [] => []
  | c :: cs =>
    if isWs c then
      match cs with
      | [] => [' ']
      | d :: _ => if isWs d then collapseWs cs else ' ' :: collapseWs cs
    else c :: collapseWs cs

/-- Model of String.prototype.trim: drop whitespace from both ends. -/
def trimChars (l : List Char) : List Char :=
  ((l.dropWhile isWs).reverse.dropWhile isWs).reverse

/-- cleanText from the route handler: collapse whitespace runs to a single
space, keep URLs as they are (the second replace in the source maps every
URL to itself, hence is the identity), and trim. -/
def cleanText (t : String) : String :=
  List.asString (trimChars (collapseWs t.data))

/-- Model of String.prototype.split on the regex \n+: cut the character
list at every maximal run of newline characters.  A leading or trailing run
yields one empty piece, exactly as in JavaScript. -/
def splitRuns : List Char → List (List Char)
  | [] => [[]]
  | c :: cs =>
    if c = '\n' then
      match cs with
      | [] => [[], []]
      | d :: _ => if d = '\n' then splitRuns cs else [] :: splitRuns cs
    else
      match splitRuns cs with
      | h :: t => (c :: h) :: t
      | [] => [[c]]

/-- Splitting on single newline characters: the plain notion of the lines
of a text, used to state the claims about the demo normalizer. -/
def splitSingle : List Char → List (List Char)
  | [] => [[]]
  | c :: cs =>
    if c = '\n' then [] :: splitSingle cs
    else
      match splitSingle cs with
      | h :: t => (c :: h) :: t
      | [] => [[c]]

/-- Trim every piece and keep the non-empty results (the map-trim-filter
part of normalizeDemoText). -/
def trimmedNonempty (xs : List (List Char)) : List (List Char) :=
  (xs.map trimChars).filter (fun t => !t.isEmpty)

/-- normalizeDemoText from the page component: split the pasted text on
runs of newlines, trim each line, drop the empty ones, number the
survivors demo-0, demo-1, ...; if nothing survives, fall back to a single
segment holding the whole trimmed input. -/
def normalizeDemoText (text : String) : List ThreadSegment :=
  let lines := trimmedNonempty (splitRuns text.data)
  let segments := lines.enum.map
    (fun p => { id := "demo-" ++ Nat.repr p.1, text := List.asString p.2 })
  if segments.isEmpty then
    [{ id := "demo-0", text := List.asString (trimChars text.data) }]
  else segments

/-- Case-insensitive literal match: consume the pattern from the front of
the input, comparing characters lower-cased, and return the remainder. -/
def matchCI : List Char → List Char → Option (List Char)
  | [], cs => some cs
  | _ :: _, [] => none
  | p :: ps, c :: cs => if p.toLower = c.toLower then matchCI ps cs else none

/-- One attempt of the regex \/(status|statuses)\/(\d+) (case-insensitive)
anchored at the current position: try the alternative status first, then
statuses, each followed by a slash and at least one digit; return the
maximal digit run matched by the greedy \d+. -/
def matchStatusAt (cs : List Char) : Option (List Char) :=
  match matchCI "/status/".data cs with
  | some rest =>
    let ds := rest.takeWhile Char.isDigit
    if ds.isEmpty then
      match matchCI "/statuses/".data cs with
      | some rest2 =>
        let ds2 := rest2.takeWhile Char.isDigit
        if ds2.isEmpty then none else some ds2
      | none => none
    else some ds
  | none =>
    match matchCI "/statuses/".data cs with
    | some rest2 =>
      let ds2 := rest2.takeWhile Char.isDigit
      if ds2.isEmpty then none else some ds2
    | none => none

/-- Leftmost match of the status-id pattern: scan positions left to right. -/
def findStatusId : List Char → Option (List Char)
  | [] => none
  | c :: cs =>
    match matchStatusAt (c :: cs) with
    | some ds => some ds
    | none => findStatusId cs

/-- extractStatusId from the route handler: the digits captured by the
first match of \/(status|statuses)\/(\d+) (case-insensitive), if any. -/
def extractStatusId (url : String) : Option String :=
  (findStatusId url.data).map List.asString

/-- Author record delivered with the root fetch (includes.users[0]). -/
structure XUser where
  username : Option String
  name : Option String
deriving DecidableEq

/-- Root post data (rootJson.data); absent fields are none. -/
structure RootTweet where
  text : Option String
  conversation_id : Option String
  author_id : Option String
deriving DecidableEq

/-- Outcome of the root fetch: the HTTP ok flag plus the parsed body parts
the handler reads.  A body that fails to parse is modelled by none. -/
structure RootFetch where
  ok : Bool
  tweet : Option RootTweet
  user : Option XUser
deriving DecidableEq

/-- One post of the search response; createdAt models the timestamp that
new Date(created_at).getTime() yields. -/
structure SearchTweet where
  id : String
  text : Option String
  createdAt : Int
deriving DecidableEq

/-- Outcome of the conversation-search fetch; tweets is none when the body
had no data array. -/
structure SearchFetch where
  ok : Bool
  tweets : Option (List SearchTweet)
deriving DecidableEq

/-- Environment the POST handler runs against: the configured bearer token
and the results the two upstream fetches would deliver if attempted. -/
structure UpstreamEnv where
  token : Option String
  root : RootFetch
  search : SearchFetch
deriving DecidableEq

/-- Response of the thread endpoint: a typed failure with its HTTP status,
or a 200 payload. -/
inductive ApiResult where
  | failure (status : Nat) (error : String)
  | success (payload : ThreadPayload)
deriving DecidableEq

/-- JavaScript truthiness filter on an optional string: keep it only when
it is present and non-empty. -/
def truthyStr : Option String → Option String
  | none => none
  | some s => if s.isEmpty then none else some s

/-- authorHandle field: at-sign plus username when the username is truthy. -/
def authorHandleOf (user : Option XUser) : Option String :=
  match truthyStr (user.bind (fun u => u.username)) with
  | some uname => some ("@" ++ uname)
  | none => none

/-- Title of the two single-segment degrade branches of the handler; note
the hard-coded singular wording. -/
def degradeTitle (user : Option XUser) : String :=
  match truthyStr (user.bind (fun u => u.name)) with
  | some n => n ++ " (1 post)"
  | none => "Thread (1 post)"

/-- Title of the full search path, using the post-filter segment count. -/
def fullTitle (user : Option XUser) (n : Nat) : String :=
  match truthyStr (user.bind (fun u => u.name)) with
  | some nm => nm ++ " (" ++ Nat.repr n ++ " posts)"
  | none => "Thread (" ++ Nat.repr n ++ " posts)"

/-- The POST handler of the thread endpoint.  The body argument is the
result of the input-schema validation (none when the body failed to parse
or was not a valid URL).  The second component of the result counts the
upstream fetches the handler performed. -/
def POST (body : Option String) (env : UpstreamEnv) : ApiResult × Nat :=
  match body with
  | none => (.failure 400 "Invalid request. Expected \x7b url \x7d.", 0)
  | some url =>
    match extractStatusId url with
    | none => (.failure 400 "Could not find a post ID in that URL.", 0)
    | some id =>
      match env.token with
      | none =>
        (.failure 501
          "Missing X_BEARER_TOKEN. Add it to your environment (local .env.local or Vercel env vars).",
          0)
      | some _ =>
        if !env.root.ok then
          (.failure 502 "X API error fetching root post.", 1)
        else
          let rootTweet := env.root.tweet
          let user := env.root.user
          let conversationId := rootTweet.bind (fun t => t.conversation_id)
          let authorId := rootTweet.bind (fun t => t.author_id)
          let rootText := cleanText ((rootTweet.bind (fun t => t.text)).getD "")
          if (truthyStr conversationId).isNone || (truthyStr authorId).isNone then
            (.success
              { title := degradeTitle user
                authorHandle := authorHandleOf user
                sourceUrl := some url
                segments := [{ id := id, text := rootText }] },
              1)
          else if !env.search.ok then
            (.success
              { title := degradeTitle user
                authorHandle := authorHandleOf user
                sourceUrl := some url
                segments := [{ id := id, text := rootText }]
                warning := some
                  "Could not access thread search on your X API plan. Returned the root post only." },
              2)
          else
            let tweets := (env.search.tweets).getD []
            let sorted := tweets.insertionSort (fun a b => a.createdAt ≤ b.createdAt)
            let segments :=
              (sorted.map (fun t =>
                ({ id := t.id, text := cleanText (t.text.getD "") } : ThreadSegment))).filter
                (fun s => decide (0 < s.text.length))
            (.success
              { title := fullTitle user segments.length
                authorHandle := authorHandleOf user
                sourceUrl := some url
                segments := segments },
              2)

/-- The lines of a pasted text in the plain sense: split at every single
newline, trim each piece, keep the non-empty ones.  Used to state the
claims about the demo normalizer. -/
def demoLines (text : String) : List (List Char) :=
  trimmedNonempty (splitSingle text.data)

/-!
The sequential playback engine of useSpeech.ts.

The hook closes over the segment list; the synthesis backend handle
(synthRef.current) is either available or not, and both are parameters of
every operation below.  The backend is modelled by: the single utterance
currently submitted and not cancelled (every speakFrom cancels before
speaking, so at most one utterance is ever live), the cancelled utterances
whose events may still be delivered when the platform cancellation is
asynchronous (their handlers stay bound; nothing in the source detaches
them), and the backend paused flag.  An utterance records the index its
handler closures captured and the text it was built from.  The submitted
counter counts the synth.speak calls; voice and rate only shape the audio
of an utterance and are not modelled.
-/

/-- Status values of the hook. -/
inductive SpeechStatus where
  | idle
  | playing
  | paused
  | ended
  | error
deriving DecidableEq

/-- A SpeechSynthesisUtterance as far as the engine observes it: the index
captured by its onend closure, and its text. -/
structure Utt where
  tag : Nat
  text : String
deriving DecidableEq

/-- Joint state of the hook and of the modelled backend. -/
structure SysState where
  status : SpeechStatus
  index : Nat
  inflight : Option Utt
  stale : List Utt
  backendPaused : Bool
  submitted : Nat
deriving DecidableEq

/-- Initial state of the hook. -/
def initState : SysState :=
  { status := .idle, index := 0, inflight := none, stale := [],
    backendPaused := false, submitted := 0 }

/-- synth.cancel(): the live utterance is removed from the queue, but its
handlers stay bound, so its events may still arrive later; pause state is
cleared. -/
def synthCancel (s : SysState) : SysState :=
  { s with inflight := none,
           stale := s.stale ++ s.inflight.toList,
           backendPaused := false }

/-- stop() of the hook: cancel, drop utterRef, status idle; no-op without a
backend. -/
def stop (avail : Bool) (s : SysState) : SysState :=
  if !avail then s
  else { synthCancel s with status := .idle }

/-- speakFrom(startIndex) of the hook: error without a backend; cancel any
prior utterance; ended when the index is out of range; otherwise build the
utterance, bind its handlers, store it, set the index and submit.  The
status is only changed later, by the onstart event. -/
def speakFrom (segments : List ThreadSegment) (avail : Bool) (startIndex : Nat)
    (s : SysState) : SysState :=
  if !avail then { s with status := .error }
  else
    let s1 := synthCancel s
    match segments[startIndex]? with
    | none => { s1 with status := .ended }
    | some seg =>
      { s1 with inflight := some { tag := startIndex, text := seg.text },
                index := startIndex,
                submitted := s1.submitted + 1 }

/-- Body of the u.onstart closure. -/
def onStart (s : SysState) : SysState :=
  { s with status := .playing }

/-- Body of the u.onend closure, with the startIndex it captured. -/
def onEnd (segments : List ThreadSegment) (avail : Bool) (startIndex : Nat)
    (s : SysState) : SysState :=
  let next := startIndex + 1
  if next < segments.length then
    speakFrom segments avail next { s with index := next }
  else
    { s with status := .ended }

/-- Body of the u.onerror closure. -/
def onError (s : SysState) : SysState :=
  { s with status := .error }

/-- The backend delivers the start event of the live utterance. -/
def deliverStart (s : SysState) : SysState :=
  match s.inflight with
  | some _ => onStart s
  | none => s

/-- The live utterance finishes and the backend delivers its end event to
the bound handler. -/
def deliverEnd (segments : List ThreadSegment) (avail : Bool) (s : SysState) : SysState :=
  match s.inflight with
  | some u => onEnd segments avail u.tag { s with inflight := none }
  | none => s

/-- The live utterance fails and the backend delivers its error event. -/
def deliverError (s : SysState) : SysState :=
  match s.inflight with
  | some _ => onError s
  | none => s

/-- Asynchronous cancellation: the end event of an utterance cancelled
earlier reaches its still-bound onend handler. -/
def deliverStaleEnd (segments : List ThreadSegment) (avail : Bool) (u : Utt)
    (s : SysState) : SysState :=
  if s.stale.contains u then
    onEnd segments avail u.tag { s with stale := s.stale.erase u }
  else s

/-- Asynchronous cancellation: the error event of an utterance cancelled
earlier reaches its still-bound onerror handler. -/
def deliverStaleError (u : Utt) (s : SysState) : SysState :=
  if s.stale.contains u then
    onError { s with stale := s.stale.erase u }
  else s

/-- play() of the hook: no-op on an empty segment list; error without a
backend; resume when the backend is paused; otherwise speak from the
current index. -/
def play (segments : List ThreadSegment) (avail : Bool) (s : SysState) : SysState :=
  if segments.length = 0 then s
  else if !avail then { s with status := .error }
  else if s.backendPaused then
    { s with backendPaused := false, status := .playing }
  else
    speakFrom segments avail s.index s

/-- pause() of the hook: no-op without a backend; otherwise backend pause
and status paused. -/
def pause (avail : Bool) (s : SysState) : SysState :=
  if !avail then s
  else { s with backendPaused := true, status := .paused }

/-- restart() of the hook. -/
def restart (segments : List ThreadSegment) (avail : Bool) (s : SysState) : SysState :=
  speakFrom segments avail 0 { stop avail s with index := 0 }

/-- skip(delta) of the hook: no-op on an empty list, else clamp the target
index, stop, and speak from the target. -/
def skip (segments : List ThreadSegment) (avail : Bool) (delta : Int)
    (s : SysState) : SysState :=
  if segments.length = 0 then s
  else
    let next := (min (max ((s.index : Int) + delta) 0) ((segments.length : Int) - 1)).toNat
    speakFrom segments avail next (stop avail s)

/-- No two adjacent whitespace characters (the shape collapseWs
guarantees between neighbours). -/
def noWsPair (a b : Char) : Prop := ¬(isWs a = true ∧ isWs b = true)

/-- Decimal digit list of a natural number, most significant first; the
fuel-free counterpart of the toDigits function of the core library, used
to reason about the demo-N identifiers. -/
def decDigits (n : Nat) : List Char :=
  if h : n < 10 then [Nat.digitChar n]
  else decDigits (n / 10) ++ [Nat.digitChar (n % 10)]
termination_by n
decreasing_by exact Nat.div_lt_self (by omega) (by norm_num)

/-- Value of a decimal digit list, most significant first. -/
def digitsVal (l : List Char) : Nat :=
  l.foldl (fun acc c => acc * 10 + (c.toNat - 48)) 0

/-- The scenario URL of the spec. -/
def urlAlice : String := "https://x.com/alice/status/42"

/-- An environment with no bearer token configured. -/
def envNoToken : UpstreamEnv :=
  { token := none,
    root := { ok := true, tweet := none, user := none },
    search := { ok := true, tweets := none } }

/-- The root post of the no-conversation-id scenario. -/
def twNoConv : RootTweet :=
  { text := some "hello  world", conversation_id := none, author_id := some "u1" }

/-- An environment whose root fetch succeeds but carries no
conversation-group identifier and no author record. -/
def envNoConv : UpstreamEnv :=
  { token := some "tok",
    root := { ok := true, tweet := some twNoConv, user := none },
    search := { ok := true, tweets := none } }

/-- The root post of the two full-path scenarios. -/
def twFull : RootTweet :=
  { text := some " root  text ", conversation_id := some "c1", author_id := some "u1" }

/-- The author record of the two full-path scenarios. -/
def userAlice : XUser := { username := some "alice", name := some "Alice A" }

/-- An environment whose root fetch succeeds with full identifiers but
whose search fetch fails. -/
def envSearchFail : UpstreamEnv :=
  { token := some "tok",
    root := { ok := true, tweet := some twFull, user := some userAlice },
    search := { ok := false, tweets := none } }

/-- An environment for the full search path, with one blank and one
non-blank post arriving out of chronological order. -/
def envFullSearch : UpstreamEnv :=
  { token := some "tok",
    root := { ok := true, tweet := some twFull, user := some userAlice },
    search := { ok := true,
                tweets := some
                  [ { id := "2", text := some "  ", createdAt := 5 },
                    { id := "1", text := some " hi   there ", createdAt := 3 } ] } }

/-- The payload the full search path produces on envFullSearch. -/
def pFullSearch : ThreadPayload :=
  { title := "Alice A (1 posts)", authorHandle := some "@alice",
    sourceUrl := some urlAlice,
    segments := [{ id := "1", text := "hi there" }] }

/-- A three-segment payload used as concrete input below. -/
def segsABC : List ThreadSegment :=
  [{ id := "s0", text := "a" }, { id := "s1", text := "b" }, { id := "s2", text := "c" }]

/-- A state with the utterance for segment 0 of segsABC in flight. -/
def stPlaying0 : SysState :=
  { status := .playing, index := 0, inflight := some { tag := 0, text := "a" },
    stale := [], backendPaused := false, submitted := 1 }

/-- A state with the utterance for segment 1 of segsABC in flight. -/
def stPlaying1 : SysState :=
  { status := .playing, index := 1, inflight := some { tag := 1, text := "b" },
    stale := [], backendPaused := false, submitted := 1 }

/-- Run exhibiting an asynchronously delivered stale completion: play from
the initial state, the utterance starts, then skip(2). -/
def stAfterSkip : SysState :=
  skip segsABC true 2 (deliverStart (play segsABC true initState))

/-- The same run after the cancelled utterance for segment 0 delivers its
end event to the still-bound handler. -/
def stAfterStaleEnd : SysState :=
  deliverStaleEnd segsABC true { tag := 0, text := "a" } stAfterSkip

/-- The first element surviving dropWhile falsifies the predicate. -/
theorem dropWhile_head_false {α : Type} (p : α → Bool) :
    ∀ (l : List α) (c : α) (cs : List α), l.dropWhile p = c :: cs → p c = false := by
  intro l
  induction l with
  | nil => intro c cs h; simp at h
  | cons a l ih =>
    intro c cs h
    by_cases hp : p a = true
    · rw [List.dropWhile_cons, if_pos hp] at h
      exact ih c cs h
    · rw [List.dropWhile_cons, if_neg hp] at h
      rw [Bool.not_eq_true] at hp
      cases h
      exact hp

/-- A non-empty trimmed list is not whitespace-only: its last character,
the head of the inner dropWhile, is not whitespace. -/
theorem trimChars_not_blank (l : List Char) (h : trimChars l ≠ []) :
    (trimChars l).all isWs = false := by
  rcases hzc : (l.dropWhile isWs).reverse.dropWhile isWs with _ | ⟨c, z'⟩
  · exfalso
    apply h
    unfold trimChars
    rw [hzc]
    rfl
  · have hcw : isWs c = false := dropWhile_head_false isWs _ c z' hzc
    have hmem : c ∈ trimChars l := by
      unfold trimChars
      rw [hzc]
      exact List.mem_reverse.mpr (List.mem_cons_self c z')
    cases hall : (trimChars l).all isWs with
    | false => rfl
    | true =>
      have hw := List.all_eq_true.mp hall c hmem
      rw [hcw] at hw
      cases hw

/-- A non-empty cleanText result is not whitespace-only. -/
theorem cleanText_not_blank (t : String) (h : 0 < (cleanText t).length) :
    (cleanText t).data.all isWs = false := by
  have hdata : (cleanText t).data = trimChars (collapseWs t.data) := rfl
  have hne : trimChars (collapseWs t.data) ≠ [] := by
    intro hnil
    rw [String.length, hdata, hnil] at h
    simp at h
  rw [hdata]
  exact trimChars_not_blank _ hne

/-- C1: with the utterance for an in-range segment k live and the backend
delivering its completion, the engine advances to index k+1 and submits
the utterance for segment k+1 when k+1 is in range, and moves to status
ended when k was the last index. -/
theorem claim1_auto_advance (segments : List ThreadSegment) (s : SysState) (u : Utt)
    (hin : s.inflight = some u) (hlt : u.tag < segments.length) :
    (u.tag + 1 < segments.length →
      (deliverEnd segments true s).index = u.tag + 1 ∧
      (∃ seg, segments[u.tag + 1]? = some seg ∧
        (deliverEnd segments true s).inflight =
          some { tag := u.tag + 1, text := seg.text }) ∧
      (deliverEnd segments true s).submitted = s.submitted + 1) ∧
    (u.tag + 1 = segments.length → (deliverEnd segments true s).status = .ended) := by
  constructor
  · intro hnext
    have hseg : segments[u.tag + 1]? = some segments[u.tag + 1] :=
      List.getElem?_eq_getElem hnext
    refine ⟨?_, ⟨segments[u.tag + 1], hseg, ?_⟩, ?_⟩ <;>
      simp [deliverEnd, hin, onEnd, hnext, speakFrom, synthCancel, hseg]
  · intro heq
    have hnot : ¬ (u.tag + 1 < segments.length) := by omega
    simp [deliverEnd, hin, onEnd, hnot]

/-- Witness for C1 at a concrete input: three segments, utterance for
segment 0 in flight; completion advances to segment 1. -/
theorem claim1_auto_advance_witness :
    (stPlaying0.inflight = some { tag := 0, text := "a" } ∧ 0 < segsABC.length) ∧
    ((0 + 1 < segsABC.length →
      (deliverEnd segsABC true stPlaying0).index = 0 + 1 ∧
      (∃ seg, segsABC[0 + 1]? = some seg ∧
        (deliverEnd segsABC true stPlaying0).inflight =
          some { tag := 0 + 1, text := seg.text }) ∧
      (deliverEnd segsABC true stPlaying0).submitted = stPlaying0.submitted + 1) ∧
    (0 + 1 = segsABC.length → (deliverEnd segsABC true stPlaying0).status = .ended)) :=
  ⟨⟨by decide, by decide⟩,
    claim1_auto_advance segsABC stPlaying0 { tag := 0, text := "a" } (by decide) (by decide)⟩

/-- C2: skip on an empty list changes nothing; on a non-empty list with an
available backend it sets the index to the clamped target, which is always
in range, and submits the utterance for that segment. -/
theorem claim2_skip_clamps (segments : List ThreadSegment) (avail : Bool)
    (delta : Int) (s : SysState) :
    (segments.length = 0 → skip segments avail delta s = s) ∧
    (avail = true → 0 < segments.length →
      (skip segments avail delta s).index =
        (min (max ((s.index : Int) + delta) 0) ((segments.length : Int) - 1)).toNat ∧
      (skip segments avail delta s).index < segments.length ∧
      (∃ seg, segments[(skip segments avail delta s).index]? = some seg ∧
        (skip segments avail delta s).inflight =
          some { tag := (skip segments avail delta s).index, text := seg.text }) ∧
      (skip segments avail delta s).submitted = s.submitted + 1) := by
  constructor
  · intro h0
    simp [skip, h0]
  · intro ha hpos
    subst ha
    have h0 : ¬ (segments.length = 0) := by omega
    set z := min (max ((s.index : Int) + delta) 0) ((segments.length : Int) - 1) with hz
    have hz0 : 0 ≤ z := by
      apply le_min
      · exact le_max_right _ _
      · omega
    have hzlt : z.toNat < segments.length := by
      have hle : z ≤ (segments.length : Int) - 1 := min_le_right _ _
      omega
    have hseg : segments[z.toNat]? = some segments[z.toNat] :=
      List.getElem?_eq_getElem hzlt
    refine ⟨?_, ?_, ⟨segments[z.toNat], ?_, ?_⟩, ?_⟩ <;>
      simp [skip, h0, ← hz, speakFrom, stop, synthCancel, hseg]
    · exact hzlt

/-- Witness for C2 at the scenario of the spec: three segments, skip(-5)
from index 1 clamps to index 0 and submits segment 0. -/
theorem claim2_skip_clamps_witness :
    (segsABC.length = 0 → skip segsABC true (-5) stPlaying1 = stPlaying1) ∧
    (true = true → 0 < segsABC.length →
      (skip segsABC true (-5) stPlaying1).index =
        (min (max ((stPlaying1.index : Int) + (-5)) 0) ((segsABC.length : Int) - 1)).toNat ∧
      (skip segsABC true (-5) stPlaying1).index < segsABC.length ∧
      (∃ seg, segsABC[(skip segsABC true (-5) stPlaying1).index]? = some seg ∧
        (skip segsABC true (-5) stPlaying1).inflight =
          some { tag := (skip segsABC true (-5) stPlaying1).index, text := seg.text }) ∧
      (skip segsABC true (-5) stPlaying1).submitted = stPlaying1.submitted + 1) :=
  claim2_skip_clamps segsABC true (-5) stPlaying1

/-- C3 (code bug): in the modelled run, after skip(2) supersedes the
utterance for segment 0 the engine is at index 2 speaking segment 2, yet
the end event of the cancelled utterance still advances the engine: it
mutates currentIndex from 2 to 1 and submits a fresh utterance for
segment 1.  Nothing in the source ignores callbacks of cancelled
utterances. -/
theorem claim3_stale_end_mutates :
    stAfterSkip.index = 2 ∧
    stAfterSkip.inflight = some { tag := 2, text := "c" } ∧
    stAfterStaleEnd.index = 1 ∧
    stAfterStaleEnd.inflight = some { tag := 1, text := "b" } ∧
    stAfterStaleEnd.submitted = stAfterSkip.submitted + 1 := by
  decide

/-- C4: from status playing with an utterance in flight, pause() followed
by play() resumes the same utterance: status is playing again, the index
and the in-flight utterance are unchanged, and nothing new is submitted. -/
theorem claim4_pause_play_resumes (segments : List ThreadSegment) (s : SysState)
    (u : Utt) (hne : segments.length ≠ 0) (hst : s.status = .playing)
    (hin : s.inflight = some u) :
    (play segments true (pause true s)).status = .playing ∧
    (play segments true (pause true s)).index = s.index ∧
    (play segments true (pause true s)).inflight = some u ∧
    (play segments true (pause true s)).submitted = s.submitted := by
  refine ⟨?_, ?_, ?_, ?_⟩ <;> simp [play, pause, hne, hin]

/-- Witness for C4 at a concrete input: three segments with the utterance
for segment 0 playing. -/
theorem claim4_pause_play_resumes_witness :
    (segsABC.length ≠ 0 ∧ stPlaying0.status = .playing ∧
      stPlaying0.inflight = some { tag := 0, text := "a" }) ∧
    ((play segsABC true (pause true stPlaying0)).status = .playing ∧
      (play segsABC true (pause true stPlaying0)).index = stPlaying0.index ∧
      (play segsABC true (pause true stPlaying0)).inflight =
        some { tag := 0, text := "a" } ∧
      (play segsABC true (pause true stPlaying0)).submitted = stPlaying0.submitted) :=
  ⟨⟨by decide, by decide, by decide⟩,
    claim4_pause_play_resumes segsABC stPlaying0 { tag := 0, text := "a" }
      (by decide) (by decide) (by decide)⟩

/-- C8: a request whose URL carries a numeric status identifier but whose
environment configures no bearer token fails with the distinct 501
missing-credential response, and no upstream fetch is attempted (the fetch
counter of the result stays 0). -/
theorem claim8_missing_credential (url id : String) (env : UpstreamEnv)
    (hid : extractStatusId url = some id) (htok : env.token = none) :
    POST (some url) env =
      (.failure 501
        "Missing X_BEARER_TOKEN. Add it to your environment (local .env.local or Vercel env vars).",
        0) := by
  simp [POST, hid, htok]

/-- Witness for C8 at the scenario of the spec. -/
theorem claim8_missing_credential_witness :
    (extractStatusId urlAlice = some "42" ∧ envNoToken.token = none) ∧
    POST (some urlAlice) envNoToken =
      (.failure 501
        "Missing X_BEARER_TOKEN. Add it to your environment (local .env.local or Vercel env vars).",
        0) :=
  ⟨⟨by decide, rfl⟩, claim8_missing_credential urlAlice "42" envNoToken (by decide) rfl⟩

/-- C7: when the root fetch succeeds with truthy conversation and author
identifiers but the search fetch fails, the handler still answers with a
success: a single segment holding the cleaned root text, plus the
non-fatal warning. -/
theorem claim7_search_fail_degrades (url id tok conv aid : String)
    (env : UpstreamEnv) (tw : RootTweet)
    (hid : extractStatusId url = some id)
    (htok : env.token = some tok)
    (hroot : env.root.ok = true)
    (htw : env.root.tweet = some tw)
    (hconv : truthyStr tw.conversation_id = some conv)
    (haid : truthyStr tw.author_id = some aid)
    (hsearch : env.search.ok = false) :
    POST (some url) env =
      (.success
        { title := degradeTitle env.root.user
          authorHandle := authorHandleOf env.root.user
          sourceUrl := some url
          segments := [{ id := id, text := cleanText (tw.text.getD "") }]
          warning := some
            "Could not access thread search on your X API plan. Returned the root post only." },
        2) := by
  simp [POST, hid, htok, hroot, htw, hconv, haid, hsearch]

/-- Witness for C7 at a concrete environment. -/
theorem claim7_search_fail_degrades_witness :
    (extractStatusId urlAlice = some "42" ∧ envSearchFail.token = some "tok" ∧
      envSearchFail.root.ok = true ∧ envSearchFail.root.tweet = some twFull ∧
      truthyStr twFull.conversation_id = some "c1" ∧
      truthyStr twFull.author_id = some "u1" ∧ envSearchFail.search.ok = false) ∧
    POST (some urlAlice) envSearchFail =
      (.success
        { title := degradeTitle envSearchFail.root.user
          authorHandle := authorHandleOf envSearchFail.root.user
          sourceUrl := some urlAlice
          segments := [{ id := "42", text := cleanText (twFull.text.getD "") }]
          warning := some
            "Could not access thread search on your X API plan. Returned the root post only." },
        2) :=
  ⟨⟨by decide, rfl, rfl, rfl, by decide, by decide, rfl⟩,
    claim7_search_fail_degrades urlAlice "42" "tok" "c1" "u1" envSearchFail twFull
      (by decide) rfl rfl rfl (by decide) (by decide) rfl⟩

/-- C9 counterexample: on a root post with no conversation-group
identifier and an unknown author the handler answers with the title
"Thread (1 post)" (hard-coded singular), not the claimed
"Thread (1 posts)". -/
theorem claim9_counterexample :
    POST (some urlAlice) envNoConv =
      (.success
        { title := "Thread (1 post)"
          authorHandle := none
          sourceUrl := some urlAlice
          segments := [{ id := "42", text := "hello world" }] },
        1) ∧
    "Thread (1 post)" ≠ "Thread (1 posts)" := by
  decide

/-- C9 as amended: when the root post carries no truthy conversation-group
identifier or no truthy author identifier, the degrade branch is a success
with a single segment holding the cleaned root text, and when the author
name is unknown its title is the generic singular form "Thread (1 post)". -/
theorem claim9_degrade_generic_title (url id tok : String) (env : UpstreamEnv)
    (tw : RootTweet)
    (hid : extractStatusId url = some id)
    (htok : env.token = some tok)
    (hroot : env.root.ok = true)
    (htw : env.root.tweet = some tw)
    (hdeg : truthyStr tw.conversation_id = none ∨ truthyStr tw.author_id = none)
    (hname : truthyStr (env.root.user.bind (fun u => u.name)) = none) :
    POST (some url) env =
      (.success
        { title := "Thread (1 post)"
          authorHandle := authorHandleOf env.root.user
          sourceUrl := some url
          segments := [{ id := id, text := cleanText (tw.text.getD "") }] },
        1) := by
  rcases hdeg with h | h <;>
    simp [POST, hid, htok, hroot, htw, h, degradeTitle, hname]

/-- Witness for the amended C9 at a concrete environment. -/
theorem claim9_degrade_generic_title_witness :
    (extractStatusId urlAlice = some "42" ∧ envNoConv.token = some "tok" ∧
      envNoConv.root.ok = true ∧ envNoConv.root.tweet = some twNoConv ∧
      (truthyStr twNoConv.conversation_id = none ∨
        truthyStr twNoConv.author_id = none) ∧
      truthyStr (envNoConv.root.user.bind (fun u => u.name)) = none) ∧
    POST (some urlAlice) envNoConv =
      (.success
        { title := "Thread (1 post)"
          authorHandle := authorHandleOf envNoConv.root.user
          sourceUrl := some urlAlice
          segments := [{ id := "42", text := cleanText (twNoConv.text.getD "") }] },
        1) :=
  ⟨⟨by decide, rfl, rfl, rfl, Or.inl rfl, rfl⟩,
    claim9_degrade_generic_title urlAlice "42" "tok" envNoConv twNoConv
      (by decide) rfl rfl rfl (Or.inl rfl) rfl⟩

/-- The second component of an enumerated pair is an element of the list. -/
theorem snd_mem_of_mem_enum {α : Type} {l : List α} {p : Nat × α}
    (h : p ∈ l.enum) : p.2 ∈ l := by
  have hm := List.mem_map_of_mem Prod.snd h
  rwa [List.enum_map_snd] at hm

/-- C6 counterexample: the demo fallback on an all-whitespace paste
produces a payload holding a single empty-text segment, so assembly does
not exclude blank segments on every path. -/
theorem claim6_counterexample :
    normalizeDemoText " " = [{ id := "demo-0", text := "" }] ∧
    ({ id := "demo-0", text := "" } : ThreadSegment).text = "" := by
  decide

/-- C6 as amended: the full search path and the non-fallback demo path
never produce a blank segment; only the single-segment degrade branches
and the demo fallback may carry one (as the counterexample shows). -/
theorem claim6_nonblank_amended :
    (∀ (url id tok conv aid : String) (env : UpstreamEnv) (tw : RootTweet)
        (p : ThreadPayload),
      extractStatusId url = some id → env.token = some tok →
      env.root.ok = true → env.root.tweet = some tw →
      truthyStr tw.conversation_id = some conv →
      truthyStr tw.author_id = some aid →
      env.search.ok = true →
      POST (some url) env = (.success p, 2) →
      ∀ s ∈ p.segments, s.text.data.all isWs = false) ∧
    (∀ text : String, trimmedNonempty (splitRuns text.data) ≠ [] →
      ∀ s ∈ normalizeDemoText text, s.text.data.all isWs = false) := by
  constructor
  · intro url id tok conv aid env tw p hid htok hroot htw hconv haid hsearch hpost
    simp [POST, hid, htok, hroot, htw, hconv, haid, hsearch] at hpost
    intro s hs
    rw [← hpost] at hs
    rw [List.mem_filter] at hs
    obtain ⟨hmem, hlen⟩ := hs
    obtain ⟨t, _, rfl⟩ := List.mem_map.mp hmem
    exact cleanText_not_blank _ (of_decide_eq_true hlen)
  · intro text hne s hs
    have hlines : (trimmedNonempty (splitRuns text.data)).enum.map
        (fun p => ({ id := "demo-" ++ Nat.repr p.1,
                     text := List.asString p.2 } : ThreadSegment)) ≠ [] := by
      intro hnil
      rw [List.map_eq_nil_iff, List.enum_eq_nil] at hnil
      exact hne hnil
    rw [normalizeDemoText, if_neg (by simpa [List.isEmpty_iff] using hlines)] at hs
    obtain ⟨p, hp, rfl⟩ := List.mem_map.mp hs
    have hmem : p.2 ∈ trimmedNonempty (splitRuns text.data) := snd_mem_of_mem_enum hp
    rw [trimmedNonempty, List.mem_filter] at hmem
    obtain ⟨hm, hnemp⟩ := hmem
    obtain ⟨w, _, hw⟩ := List.mem_map.mp hm
    have hdata : (List.asString p.2).data = p.2 := rfl
    simp only [hdata]
    rw [← hw]
    apply trimChars_not_blank
    rw [hw]
    simpa using hnemp

/-- Witness for the amended C6 at concrete inputs for both conjuncts. -/
theorem claim6_nonblank_amended_witness :
    (POST (some urlAlice) envFullSearch = (.success pFullSearch, 2) ∧
      ∀ s ∈ pFullSearch.segments, s.text.data.all isWs = false) ∧
    (trimmedNonempty (splitRuns ("a\n\n  \nb" : String).data) ≠ [] ∧
      ∀ s ∈ normalizeDemoText "a\n\n  \nb", s.text.data.all isWs = false) :=
  ⟨⟨by decide,
    claim6_nonblank_amended.1 urlAlice "42" "tok" "c1" "u1" envFullSearch twFull
      pFullSearch (by decide) rfl rfl rfl (by decide) (by decide) rfl (by decide)⟩,
   ⟨by decide, claim6_nonblank_amended.2 "a\n\n  \nb" (by decide)⟩⟩

/-- Unfolding of trimmedNonempty over a cons cell. -/
theorem tn_cons (x : List Char) (xs : List (List Char)) :
    trimmedNonempty (x :: xs) =
      if (trimChars x).isEmpty then trimmedNonempty xs
      else trimChars x :: trimmedNonempty xs := by
  simp only [trimmedNonempty, List.map_cons, List.filter_cons]
  cases h : (trimChars x).isEmpty <;> simp [h]

/-- Splitting on newline runs and splitting on single newlines agree up to
empty pieces: both produce the same head piece (empty when the text starts
with a newline) and tails with the same trimmed non-empty lines. -/
theorem splitRuns_splitSingle_agree (cs : List Char) :
    ∃ w t t2, splitRuns cs = w :: t ∧ splitSingle cs = w :: t2 ∧
      trimmedNonempty t = trimmedNonempty t2 ∧
      (∀ d, cs.head? = some d → d = '\n' → w = []) := by
  induction cs with
  | nil => exact ⟨[], [], [], rfl, rfl, rfl, by simp⟩
  | cons c cs ih =>
    obtain ⟨w, t, t2, h1, h2, h3, h4⟩ := ih
    by_cases hc : c = '\n'
    · subst hc
      cases cs with
      | nil =>
        refine ⟨[], [[]], [[]], by simp [splitRuns], by simp [splitSingle], rfl, ?_⟩
        intro d _ _
        rfl
      | cons d cs' =>
        by_cases hd : d = '\n'
        · subst hd
          have hw : w = [] := h4 '\n' rfl rfl
          subst hw
          refine ⟨[], t, [] :: t2, ?_, ?_, ?_, ?_⟩
          · rw [splitRuns]
            simpa using h1
          · rw [splitSingle]
            simp [h2]
          · rw [tn_cons]
            have htr : trimChars ([] : List Char) = [] := rfl
            rw [htr]
            simpa using h3
          · intro e _ _
            rfl
        · refine ⟨[], splitRuns (d :: cs'), splitSingle (d :: cs'), ?_, ?_, ?_, ?_⟩
          · rw [splitRuns.eq_def]
            simp [hd]
          · rw [splitSingle.eq_def]
            simp
          · rw [h1, h2, tn_cons, tn_cons, h3]
          · intro e _ _
            rfl
    · refine ⟨c :: w, t, t2, ?_, ?_, h3, ?_⟩
      · rw [splitRuns.eq_def]
        simp only [if_neg hc]
        rw [h1]
      · rw [splitSingle.eq_def]
        simp only [if_neg hc]
        rw [h2]
      · intro d hd hdn
        simp at hd
        rw [← hd] at hdn
        exact absurd hdn hc

/-- The trimmed non-empty lines do not depend on whether the text was
split on newline runs or on single newlines. -/
theorem tn_split_agree (cs : List Char) :
    trimmedNonempty (splitRuns cs) = trimmedNonempty (splitSingle cs) := by
  obtain ⟨w, t, t2, h1, h2, h3, _⟩ := splitRuns_splitSingle_agree cs
  rw [h1, h2, tn_cons, tn_cons, h3]

/-- toDigitsCore of the core library computes decDigits when given enough
fuel. -/
theorem toDigitsCore_eq_decDigits :
    ∀ (fuel n : Nat) (ds : List Char), n < 10 ^ fuel →
      Nat.toDigitsCore 10 (fuel + 1) n ds = decDigits n ++ ds := by
  intro fuel
  induction fuel with
  | zero =>
    intro n ds h
    have hn : n = 0 := by simpa using h
    subst hn
    simp [Nat.toDigitsCore, decDigits]
  | succ fuel ih =>
    intro n ds h
    by_cases h10 : n < 10
    · have hdiv : n / 10 = 0 := Nat.div_eq_of_lt h10
      have hmod : n % 10 = n := Nat.mod_eq_of_lt h10
      rw [Nat.toDigitsCore]
      simp [hdiv, hmod, decDigits, h10]
    · have hdiv : ¬ (n / 10 = 0) := by omega
      have hlt : n / 10 < 10 ^ fuel := by
        rw [Nat.div_lt_iff_lt_mul (by norm_num)]
        rw [pow_succ] at h
        exact h
      rw [Nat.toDigitsCore]
      simp only [hdiv, if_false]
      rw [ih (n / 10) _ hlt]
      conv_rhs => rw [decDigits]
      simp [h10, List.append_assoc]

/-- The decimal representation used by Nat.repr is decDigits. -/
theorem toDigits_eq_decDigits (n : Nat) : Nat.toDigits 10 n = decDigits n := by
  rw [Nat.toDigits]
  rcases n with _ | m
  · simpa using toDigitsCore_eq_decDigits 0 0 [] (by norm_num)
  · have h : m + 1 < 10 ^ (m + 1) := Nat.lt_pow_self (by norm_num) (m + 1)
    simpa using toDigitsCore_eq_decDigits (m + 1) (m + 1) [] h

/-- Character value of a decimal digit. -/
theorem digitChar_toNat (d : Nat) (h : d < 10) : (Nat.digitChar d).toNat = 48 + d := by
  interval_cases d <;> rfl

/-- digitsVal over a snoc. -/
theorem digitsVal_append (l : List Char) (c : Char) :
    digitsVal (l ++ [c]) = digitsVal l * 10 + (c.toNat - 48) := by
  simp [digitsVal, List.foldl_append]

/-- digitsVal recovers the number from its decDigits. -/
theorem digitsVal_decDigits (n : Nat) : digitsVal (decDigits n) = n := by
  induction n using Nat.strong_induction_on with
  | _ n ih =>
    by_cases h : n < 10
    · rw [decDigits]
      simp only [h, dif_pos]
      simp [digitsVal, digitChar_toNat n h]
    · rw [decDigits]
      simp only [h, dif_neg, not_false_iff]
      rw [digitsVal_append, ih (n / 10) (Nat.div_lt_self (by omega) (by norm_num)),
        digitChar_toNat (n % 10) (Nat.mod_lt n (by norm_num))]
      omega

/-- Decimal representations are injective. -/
theorem nat_repr_injective : Function.Injective Nat.repr := by
  intro m n h
  have hd : Nat.toDigits 10 m = Nat.toDigits 10 n := by
    have hdata := congrArg String.data h
    simpa [Nat.repr, List.asString] using hdata
  rw [toDigits_eq_decDigits, toDigits_eq_decDigits] at hd
  have hv := congrArg digitsVal hd
  rwa [digitsVal_decDigits, digitsVal_decDigits] at hv

/-- The synthetic demo identifiers are injective in the index. -/
theorem demoId_injective : Function.Injective (fun i : Nat => "demo-" ++ Nat.repr i) := by
  intro i j h
  simp only at h
  have hd := congrArg String.data h
  rw [String.data_append, String.data_append] at hd
  have hr : (Nat.repr i).data = (Nat.repr j).data := List.append_cancel_left hd
  apply nat_repr_injective
  have e1 : Nat.repr i = String.mk (Nat.repr i).data := rfl
  have e2 : Nat.repr j = String.mk (Nat.repr j).data := rfl
  rw [e1, e2, hr]

/-- C5: when at least one line of the pasted text is non-empty after
trimming, the demo normalizer produces exactly those lines as segment
texts, in input order, with the sequential identifiers demo-0, demo-1,
..., which are pairwise distinct; when no line survives, it produces the
single fallback segment holding the whole trimmed input. -/
theorem claim5_demo_segments (text : String) :
    (demoLines text ≠ [] →
      (normalizeDemoText text).length = (demoLines text).length ∧
      (normalizeDemoText text).map (fun s => s.text) = (demoLines text).map List.asString ∧
      (normalizeDemoText text).map (fun s => s.id) =
        (List.range (demoLines text).length).map (fun i => "demo-" ++ Nat.repr i) ∧
      ((normalizeDemoText text).map (fun s => s.id)).Nodup) ∧
    (demoLines text = [] →
      normalizeDemoText text =
        [{ id := "demo-0", text := List.asString (trimChars text.data) }]) := by
  have hagree : trimmedNonempty (splitRuns text.data) = demoLines text := by
    rw [demoLines]
    exact tn_split_agree text.data
  constructor
  · intro hne
    have hmapne : (demoLines text).enum.map
        (fun p => ({ id := "demo-" ++ Nat.repr p.1,
                     text := List.asString p.2 } : ThreadSegment)) ≠ [] := by
      intro hnil
      rw [List.map_eq_nil_iff, List.enum_eq_nil] at hnil
      exact hne hnil
    have hnorm : normalizeDemoText text = (demoLines text).enum.map
        (fun p => ({ id := "demo-" ++ Nat.repr p.1,
                     text := List.asString p.2 } : ThreadSegment)) := by
      rw [normalizeDemoText, hagree, if_neg (by simpa [List.isEmpty_iff] using hmapne)]
    rw [hnorm]
    refine ⟨?_, ?_, ?_, ?_⟩
    · simp [List.enum_length]
    · rw [List.map_map]
      have hcomp : ((fun s : ThreadSegment => s.text) ∘
          (fun p : Nat × List Char =>
            ({ id := "demo-" ++ Nat.repr p.1,
               text := List.asString p.2 } : ThreadSegment))) =
          (List.asString ∘ Prod.snd) := rfl
      rw [hcomp, ← List.map_map, List.enum_map_snd]
    · rw [List.map_map]
      have hcomp : ((fun s : ThreadSegment => s.id) ∘
          (fun p : Nat × List Char =>
            ({ id := "demo-" ++ Nat.repr p.1,
               text := List.asString p.2 } : ThreadSegment))) =
          ((fun i => "demo-" ++ Nat.repr i) ∘ Prod.fst) := rfl
      rw [hcomp, ← List.map_map, List.enum_map_fst]
    · rw [List.map_map]
      have hcomp : ((fun s : ThreadSegment => s.id) ∘
          (fun p : Nat × List Char =>
            ({ id := "demo-" ++ Nat.repr p.1,
               text := List.asString p.2 } : ThreadSegment))) =
          ((fun i => "demo-" ++ Nat.repr i) ∘ Prod.fst) := rfl
      rw [hcomp, ← List.map_map, List.enum_map_fst]
      exact (List.nodup_range _).map demoId_injective
  · intro hemp
    rw [normalizeDemoText, hagree, hemp]
    simp

/-- Witness for C5: the scenario text with a blank line, and the
all-whitespace fallback input. -/
theorem claim5_demo_segments_witness :
    (demoLines "a\n\nb\nc" ≠ [] ∧
      ((normalizeDemoText "a\n\nb\nc").length = (demoLines "a\n\nb\nc").length ∧
        (normalizeDemoText "a\n\nb\nc").map (fun s => s.text) =
          (demoLines "a\n\nb\nc").map List.asString ∧
        (normalizeDemoText "a\n\nb\nc").map (fun s => s.id) =
          (List.range (demoLines "a\n\nb\nc").length).map
            (fun i => "demo-" ++ Nat.repr i) ∧
        ((normalizeDemoText "a\n\nb\nc").map (fun s => s.id)).Nodup)) ∧
    (demoLines " " = [] ∧
      normalizeDemoText " " =
        [{ id := "demo-0", text := List.asString (trimChars (" " : String).data) }]) :=
  ⟨⟨by decide, (claim5_demo_segments "a\n\nb\nc").1 (by decide)⟩,
   ⟨by decide, (claim5_demo_segments " ").2 (by decide)⟩⟩

/-- Every whitespace character collapseWs emits is the plain space. -/
theorem mem_collapseWs_ws (l : List Char) :
    ∀ c ∈ collapseWs l, isWs c = true → c = ' ' := by
  induction l with
  | nil => simp [collapseWs]
  | cons a cs ih =>
    cases cs with
    | nil =>
      by_cases ha : isWs a = true
      · simp [collapseWs, ha]
      · simp only [Bool.not_eq_true] at ha
        simp [collapseWs, ha]
    | cons d cs' =>
      by_cases ha : isWs a = true
      · by_cases hd : isWs d = true
        · rw [collapseWs, if_pos ha]
          simpa [hd] using ih
        · simp only [Bool.not_eq_true] at hd
          rw [collapseWs, if_pos ha]
          simp only [hd, Bool.false_eq_true, if_false]
          intro c hc hw
          rcases List.mem_cons.mp hc with h | h
          · exact h
          · exact ih c h hw
      · simp only [Bool.not_eq_true] at ha
        rw [collapseWs, if_neg (by simp [ha])]
        intro c hc hw
        rcases List.mem_cons.mp hc with h | h
        · rw [h] at hw
          rw [ha] at hw
          cases hw
        · exact ih c h hw

/-- The head collapseWs produces for a list led by a non-whitespace
character is that character. -/
theorem collapseWs_head_nonws (d : Char) (cs : List Char) (hd : isWs d = false) :
    ∃ t, collapseWs (d :: cs) = d :: t := by
  cases cs with
  | nil => exact ⟨[], by simp [collapseWs, hd]⟩
  | cons e cs' => exact ⟨collapseWs (e :: cs'), by rw [collapseWs, if_neg (by simp [hd])]⟩

/-- collapseWs never emits two adjacent whitespace characters. -/
theorem chain'_collapseWs (l : List Char) : List.Chain' noWsPair (collapseWs l) := by
  induction l with
  | nil => simp [collapseWs]
  | cons a cs ih =>
    cases cs with
    | nil =>
      by_cases ha : isWs a = true <;>
        [simp [collapseWs, ha]; simp [collapseWs, (Bool.not_eq_true _).mp ha]]
    | cons d cs' =>
      by_cases ha : isWs a = true
      · by_cases hd : isWs d = true
        · rw [collapseWs, if_pos ha]
          simpa [hd] using ih
        · simp only [Bool.not_eq_true] at hd
          rw [collapseWs, if_pos ha]
          simp only [hd, Bool.false_eq_true, if_false]
          rw [List.chain'_cons']
          refine ⟨?_, ih⟩
          intro y hy
          obtain ⟨t, ht⟩ := collapseWs_head_nonws d cs' hd
          rw [ht] at hy
          simp at hy
          subst hy
          rw [noWsPair, hd]
          simp
      · simp only [Bool.not_eq_true] at ha
        rw [collapseWs, if_neg (by simp [ha])]
        rw [List.chain'_cons']
        refine ⟨?_, ih⟩
        intro y _
        rw [noWsPair, ha]
        simp

/-- Lists whose whitespace is single spaces between non-whitespace
neighbours are collapseWs fixpoints. -/
theorem collapseWs_fix (l : List Char)
    (h1 : ∀ c ∈ l, isWs c = true → c = ' ')
    (h2 : List.Chain' noWsPair l) : collapseWs l = l := by
  induction l with
  | nil => rfl
  | cons a cs ih =>
    have h1t : ∀ c ∈ cs, isWs c = true → c = ' ' :=
      fun c hc => h1 c (List.mem_cons_of_mem a hc)
    have h2t : List.Chain' noWsPair cs := (List.chain'_cons'.mp h2).2
    cases cs with
    | nil =>
      by_cases ha : isWs a = true
      · have : a = ' ' := h1 a (List.mem_cons_self a []) ha
        simp [collapseWs, ha, this]
      · simp only [Bool.not_eq_true] at ha
        simp [collapseWs, ha]
    | cons d cs' =>
      by_cases ha : isWs a = true
      · have hd : isWs d = false := by
          have hr := (List.chain'_cons'.mp h2).1 d rfl
          rw [noWsPair] at hr
          cases hdd : isWs d with
          | false => rfl
          | true => exact absurd ⟨ha, hdd⟩ hr
        have haa : a = ' ' := h1 a (List.mem_cons_self a _) ha
        rw [collapseWs, if_pos ha]
        simp only [hd, Bool.false_eq_true, if_false]
        rw [ih h1t h2t, haa]
      · simp only [Bool.not_eq_true] at ha
        rw [collapseWs, if_neg (by simp [ha])]
        rw [ih h1t h2t]

/-- The trimmed list is a contiguous part of the original. -/
theorem trimChars_within (l : List Char) : trimChars l <:+: l := by
  have hsuf : (l.dropWhile isWs).reverse.dropWhile isWs <:+ (l.dropWhile isWs).reverse :=
    List.dropWhile_suffix isWs
  have hpre : trimChars l <+: l.dropWhile isWs := by
    have h := (@List.reverse_prefix Char ((l.dropWhile isWs).reverse.dropWhile isWs)
      (l.dropWhile isWs).reverse).mpr hsuf
    rwa [List.reverse_reverse] at h
  exact List.IsInfix.trans ( List.IsPrefix.isInfix hpre)
    ( List.IsSuffix.isInfix (List.dropWhile_suffix isWs))

/-- dropWhile is the identity when the head already falsifies the
predicate. -/
theorem dropWhile_eq_self_of_head {α : Type} (p : α → Bool) (l : List α)
    (h : ∀ a, l.head? = some a → p a = false) : l.dropWhile p = l := by
  cases l with
  | nil => rfl
  | cons a l =>
    rw [List.dropWhile_cons, if_neg]
    rw [h a rfl]
    simp

/-- A list with non-whitespace ends is a trimChars fixpoint. -/
theorem trimChars_eq_self (l : List Char)
    (h1 : ∀ a, l.head? = some a → isWs a = false)
    (h2 : ∀ a, l.reverse.head? = some a → isWs a = false) : trimChars l = l := by
  unfold trimChars
  rw [dropWhile_eq_self_of_head isWs l h1, dropWhile_eq_self_of_head isWs l.reverse h2,
    List.reverse_reverse]

/-- The head of a trimmed list is not whitespace. -/
theorem trimChars_head (l : List Char) (a : Char)
    (h : (trimChars l).head? = some a) : isWs a = false := by
  have hpre : trimChars l <+: l.dropWhile isWs := by
    have hsuf : (l.dropWhile isWs).reverse.dropWhile isWs <:+ (l.dropWhile isWs).reverse :=
      List.dropWhile_suffix isWs
    have hp := (@List.reverse_prefix Char ((l.dropWhile isWs).reverse.dropWhile isWs)
      (l.dropWhile isWs).reverse).mpr hsuf
    rwa [List.reverse_reverse] at hp
  obtain ⟨r, hr⟩ := hpre
  rcases htc : trimChars l with _ | ⟨b, m⟩
  · rw [htc] at h
    cases h
  · rw [htc] at h
    simp at h
    rw [htc] at hr
    rw [← h]
    exact dropWhile_head_false isWs l b (m ++ r) (by rw [← hr]; rfl)

/-- The last element of a trimmed list is not whitespace. -/
theorem trimChars_rev_head (l : List Char) (a : Char)
    (h : (trimChars l).reverse.head? = some a) : isWs a = false := by
  have hrev : (trimChars l).reverse = (l.dropWhile isWs).reverse.dropWhile isWs := by
    unfold trimChars
    rw [List.reverse_reverse]
  rw [hrev] at h
  rcases hz : (l.dropWhile isWs).reverse.dropWhile isWs with _ | ⟨b, m⟩
  · rw [hz] at h
    cases h
  · rw [hz] at h
    simp at h
    rw [← h]
    exact dropWhile_head_false isWs _ b m hz

/-- C10: cleanText is idempotent; its output is already normalized, so
cleaning it again changes nothing. -/
theorem claim10_cleanText_idempotent (s : String) :
    cleanText (cleanText s) = cleanText s := by
  have hdata : (cleanText s).data = trimChars (collapseWs s.data) := rfl
  have hwithin : trimChars (collapseWs s.data) <:+: collapseWs s.data := trimChars_within _
  have hP1 : ∀ c ∈ trimChars (collapseWs s.data), isWs c = true → c = ' ' :=
    fun c hc => mem_collapseWs_ws s.data c (hwithin.sublist.subset hc)
  have hChain : List.Chain' noWsPair (trimChars (collapseWs s.data)) :=
    List.Chain'.infix (chain'_collapseWs s.data) hwithin
  have hcol : collapseWs (trimChars (collapseWs s.data)) = trimChars (collapseWs s.data) :=
    collapseWs_fix _ hP1 hChain
  have htrim : trimChars (trimChars (collapseWs s.data)) = trimChars (collapseWs s.data) :=
    trimChars_eq_self _ (trimChars_head _) (trimChars_rev_head _)
  show List.asString (trimChars (collapseWs (cleanText s).data)) = cleanText s
  rw [hdata, hcol, htrim]
  rfl

end TLDR
